import Mathlib

/-!
Shallow embedding of `public/app/features/alerting/unified/utils/rules.ts`:
rule-record classifiers, label/annotation canonicalization, the content
fingerprint (`hashRulerRule`), the rule-identifier model and its string
codec (`stringifyRuleIdentifier` / `parseRuleIdentifier`), and the
derivation entry point (`getRuleIdentifier`).

JavaScript strings are modelled as `List Char`; the JavaScript builtins
the file uses (`JSON.stringify` on arrays of strings, `String(...)` and
`Number(...)` on numbers, `localeCompare`, `Array.prototype.sort`) are
modelled explicitly below, each with a doc comment stating the modelled
domain.
-/

abbrev Str := List Char

abbrev LabelMap := List (Str × Str)

/-- Models JSON string escaping as used by `JSON.stringify` on a string
value: backslash and double-quote are escaped; the control-character
escapes are not modelled (no claim depends on them). -/
def escJsonChar (c : Char) : Str :=
  if c = '"' then '\\' :: '"' :: []
  else if c = '\\' then '\\' :: '\\' :: []
  else c :: []

/-- A JSON string literal: quote, escape the content, quote. -/
def jsonQuote (s : Str) : Str :=
  '"' :: (List.flatten (s.map escJsonChar)) ++ ('"' :: [])

/-- Models `JSON.stringify` applied to a JavaScript array of strings. -/
def jsonStringifyStrings (l : List Str) : Str :=
  '[' :: (List.intercalate (',' :: []) (l.map jsonQuote)) ++ (']' :: [])

/-- Models `JSON.stringify` applied to an array of 2-element string arrays,
the shape produced by `Object.entries` on a string-to-string object. -/
def jsonStringifyPairs (l : List (Str × Str)) : Str :=
  '[' :: (List.intercalate (',' :: [])
    (l.map (fun p => '[' :: (jsonQuote p.1 ++ (',' :: jsonQuote p.2) ++ (']' :: []))))) ++ (']' :: [])

/-- Modelled from the spec: the comparator `a[0].localeCompare(b[0])` used to
sort entries is an external locale-aware total order on strings; the spec
needs only that it is a deterministic total order, modelled here as the
lexicographic order on the character lists. -/
def entryLe (p q : Str × Str) : Prop := p.1 ≤ q.1

instance : DecidableRel entryLe := fun p q => inferInstanceAs (Decidable (p.1 ≤ q.1))

instance : IsTotal (Str × Str) entryLe := ⟨fun p q => le_total p.1 q.1⟩

instance : IsTrans (Str × Str) entryLe := ⟨fun _ _ _ h1 h2 => le_trans h1 h2⟩

/-- The strict key order used to show sorted lists are unique. -/
def entryLt (p q : Str × Str) : Prop := p.1 < q.1

instance : IsAntisymm (Str × Str) entryLt :=
  ⟨fun _ _ h1 h2 => absurd h1 (lt_asymm h2)⟩

/-- `hashLabelsOrAnnotations` from `rules.ts`:
`JSON.stringify(Object.entries(item || \x7b\x7d).sort((a, b) => a[0].localeCompare(b[0])))`.
`Object.entries` of an (insertion-ordered) object is the association list
itself; the stable `sort` is modelled as insertion sort by the key order. -/
def hashLabelsOrAnnotations (item : Option LabelMap) : Str :=
  jsonStringifyPairs (List.insertionSort entryLe (item.getD []))

/-- The `grafana_alert` block of a native (Grafana-backend) rule record; the
source reads `rule.grafana_alert.uid!`, asserting the uid is present. -/
structure GrafanaAlertBlock where
  uid : Str
deriving DecidableEq

/-- Modelled from the spec: the record type `RulerRuleDTO` is declared in
`app/types/unified-alerting-dto` (not part of the sources here). Per the
spec it is a structurally-typed union of three shapes — Recording
(`record` + `expr` + optional labels), Alerting (`alert` + `expr` +
optional labels and annotations), Native (nested `grafana_alert` identity
block) — mutually exclusive by their distinguishing field, plus the
possibility of a record matching none of the shapes (an invalid record). -/
inductive RuleRecord where
  | recording (record : Str) (expr : Str) (labels : Option LabelMap)
  | alerting (alert : Str) (expr : Str) (labels : Option LabelMap)
      (annotations : Option LabelMap)
  | grafana (grafana_alert : GrafanaAlertBlock)
  | invalid
deriving DecidableEq

/-- `isAlertingRulerRule`: `'alert' in rule`. -/
def isAlertingRulerRule : RuleRecord → Bool
  | RuleRecord.alerting _ _ _ _ => true
  | _ => false

/-- `isRecordingRulerRule`: `'record' in rule`. -/
def isRecordingRulerRule : RuleRecord → Bool
  | RuleRecord.recording _ _ _ => true
  | _ => false

/-- `isGrafanaRulerRule`: `typeof rule === 'object' && 'grafana_alert' in rule`;
the argument is optional (`rule?: RulerRuleDTO`) and `typeof undefined`
is not `'object'`, so an absent rule yields `false`. -/
def isGrafanaRulerRule : Option RuleRecord → Bool
  | none => false
  | some (RuleRecord.grafana _) => true
  | some _ => false

/-- `hashRulerRule`, parametrized by the external string-hash primitive
(`hash` from `./misc`, consumed as a black box `hash(string) -> integer`).
Recording: `hash(JSON.stringify([rule.record, rule.expr,
hashLabelsOrAnnotations(rule.labels)]))`; Alerting: `hash(JSON.stringify(
[rule.alert, rule.expr, hashLabelsOrAnnotations(rule.annotations),
hashLabelsOrAnnotations(rule.labels)]))`; anything else throws. -/
def hashRulerRule (hash : Str → Int) : RuleRecord → Except String Int
  | RuleRecord.recording record expr labels =>
      Except.ok (hash (jsonStringifyStrings
        (record :: expr :: hashLabelsOrAnnotations labels :: [])))
  | RuleRecord.alerting alert expr labels annotations =>
      Except.ok (hash (jsonStringifyStrings
        (alert :: expr :: hashLabelsOrAnnotations annotations ::
          hashLabelsOrAnnotations labels :: [])))
  | _ => Except.error ("only recording and alerting ruler rules can be hashed")

/-- Models a JavaScript number as it occurs here: an integer (the hash
result, or a parsed fingerprint) or the `NaN` produced by coercing a
non-numeric string. -/
inductive JSNum where
  | num : Int → JSNum
  | nan : JSNum
deriving DecidableEq

/-- The `RuleIdentifier` union: `GrafanaRuleIdentifier` (`uid`) or
`CloudRuleIdentifier` (`ruleSourceName`, `namespace`, `groupName`,
`ruleHash`), discriminated structurally by field presence. -/
inductive RuleIdentifier where
  | grafana (uid : Str)
  | cloud (ruleSourceName : Str) (nspace : Str) (groupName : Str) (ruleHash : JSNum)
deriving DecidableEq

/-- `isGrafanaRuleIdentifier`: `'uid' in location`. -/
def isGrafanaRuleIdentifier : RuleIdentifier → Bool
  | RuleIdentifier.grafana _ => true
  | _ => false

/-- `isCloudRuleIdentifier`: `'ruleSourceName' in location`. -/
def isCloudRuleIdentifier : RuleIdentifier → Bool
  | RuleIdentifier.cloud _ _ _ _ => true
  | _ => false

/-- `escapeDollars`: `value.replace(/\$/g, '_DOLLAR_')`. -/
def escapeDollars : Str → Str
  | [] => []
  | c :: rest =>
      if c = '$' then
        '_' :: 'D' :: 'O' :: 'L' :: 'L' :: 'A' :: 'R' :: '_' :: escapeDollars rest
      else c :: escapeDollars rest

/-- `unesacapeDollars` (name as in the source):
`value.replace(/\_DOLLAR\_/g, '$')` — replace every occurrence of the
placeholder `_DOLLAR_`, scanning left to right. -/
def unesacapeDollars : Str → Str
  | '_' :: 'D' :: 'O' :: 'L' :: 'L' :: 'A' :: 'R' :: '_' :: rest =>
      '$' :: unesacapeDollars rest
  | c :: rest => c :: unesacapeDollars rest
  | [] => []

/-- Models `location.split('$')`: the list of chunks between `$`
delimiters; splitting a delimiter-free string yields one part. -/
def splitDollar : Str → List Str
  | [] => [] :: []
  | c :: rest =>
      if c = '$' then [] :: splitDollar rest
      else
        match splitDollar rest with
        | p :: ps => (c :: p) :: ps
        | [] => (c :: []) :: []

def digitChar (n : Nat) : Char := Char.ofNat (48 + n)

/-- Decimal printer worker: most-significant digit first, fuel-structural. -/
def natToCharsGo : Nat → Nat → Str → Str
  | 0, _, acc => acc
  | fuel + 1, n, acc =>
      if n < 10 then digitChar (n % 10) :: acc
      else natToCharsGo fuel (n / 10) (digitChar (n % 10) :: acc)

def natToChars (n : Nat) : Str := natToCharsGo (n + 1) n []

/-- Models JavaScript `String(x)` on the numbers occurring here: decimal
digits, a leading `-` for negatives, and `NaN` for the not-a-number value. -/
def jsNumToChars : JSNum → Str
  | JSNum.num n => if n < 0 then '-' :: natToChars n.natAbs else natToChars n.toNat
  | JSNum.nan => 'N' :: 'a' :: 'N' :: []

def charDigitVal (c : Char) : Nat := c.toNat - 48

def isDigitChar (c : Char) : Bool := 48 ≤ c.toNat && c.toNat ≤ 57

/-- Accumulating decimal value of a most-significant-first digit string. -/
def valFrom (a : Nat) : Str → Nat
  | [] => a
  | c :: l => valFrom (10 * a + charDigitVal c) l

/-- Models JavaScript `Number(s)` string coercion on the domain relevant
here: the empty string coerces to `0`, an optional-sign decimal integer
literal coerces to that integer, and any other string — in particular any
non-numeric fingerprint part — coerces to `NaN`. (Fractional,
hexadecimal, whitespace-padded and `Infinity` forms, which no claim and
no output of the codec produces, are not modelled.) -/
def jsNumberOfChars (s : Str) : JSNum :=
  match s with
  | [] => JSNum.num 0
  | c :: t =>
      if c = '-' then
        if t ≠ [] ∧ t.all isDigitChar then JSNum.num (-(valFrom 0 t : Int))
        else JSNum.nan
      else if (c :: t).all isDigitChar then JSNum.num ((valFrom 0 (c :: t) : Int))
      else JSNum.nan

/-- `stringifyRuleIdentifier`: a Grafana identifier is its uid unchanged;
a cloud identifier is
`[ruleSourceName, namespace, groupName, ruleHash].map(String).map(escapeDollars).join('$')`. -/
def stringifyRuleIdentifier : RuleIdentifier → Str
  | RuleIdentifier.grafana uid => uid
  | RuleIdentifier.cloud s n g h =>
      List.intercalate ('$' :: [])
        (List.map escapeDollars (s :: n :: g :: jsNumToChars h :: []))

/-- `parseRuleIdentifier`: split on `$`; one part is a Grafana uid, four
parts are unescaped into a cloud identifier whose `ruleHash` is the
`Number(...)` coercion of the fourth part, any other part count throws
`Failed to parse rule location: ` + the input. -/
def parseRuleIdentifier (location : Str) : Except String RuleIdentifier :=
  match splitDollar location with
  | _ :: [] => Except.ok (RuleIdentifier.grafana location)
  | a :: b :: c :: d :: [] =>
      Except.ok (RuleIdentifier.cloud (unesacapeDollars a) (unesacapeDollars b)
        (unesacapeDollars c) (jsNumberOfChars (unesacapeDollars d)))
  | _ => Except.error ("Failed to parse rule location: " ++ String.mk location)

/-- `getRuleIdentifier`: a Grafana (native) rule yields its embedded uid;
otherwise the three location fields plus `hashRulerRule(rule)` form a
cloud identifier (a hashing error propagates). -/
def getRuleIdentifier (hash : Str → Int) (ruleSourceName : Str) (nspace : Str)
    (groupName : Str) (rule : RuleRecord) : Except String RuleIdentifier :=
  match rule with
  | RuleRecord.grafana ga => Except.ok (RuleIdentifier.grafana ga.uid)
  | r =>
      (hashRulerRule hash r).map
        (fun h => RuleIdentifier.cloud ruleSourceName nspace groupName (JSNum.num h))

/-- The escape placeholder without its closing underscore: a field
containing this stem next to further placeholder text defeats the
escaping, so the round-trip guarantee excludes it. -/
def stemChars : Str := '_' :: 'D' :: 'O' :: 'L' :: 'L' :: 'A' :: 'R' :: []

/-- The identifiers for which the codec round-trips: a Grafana uid free of
the delimiter, or a cloud identifier whose location fields do not contain
the placeholder stem `_DOLLAR` and whose `ruleHash` is a number. -/
def RoundTripSafe : RuleIdentifier → Prop
  | RuleIdentifier.grafana uid => '$' ∉ uid
  | RuleIdentifier.cloud s n g h =>
      ¬ stemChars <:+: s ∧ ¬ stemChars <:+: n ∧ ¬ stemChars <:+: g ∧
        h ≠ JSNum.nan

instance : DecidablePred RoundTripSafe := by
  intro id
  cases id with
  | grafana uid => exact inferInstanceAs (Decidable ('$' ∉ uid))
  | cloud s n g h => exact inferInstanceAs (Decidable (_ ∧ _ ∧ _ ∧ h ≠ JSNum.nan))

/-! ### Helper lemmas: the dollar escaping and splitting -/

theorem dollar_not_mem_escapeDollars (s : Str) : '$' ∉ escapeDollars s := by
  induction s with
  | nil => simp [escapeDollars]
  | cons c t ih =>
      by_cases hc : c = '$'
      · subst hc
        intro hm
        rw [show escapeDollars ('$' :: t)
              = '_' :: 'D' :: 'O' :: 'L' :: 'L' :: 'A' :: 'R' :: '_' :: escapeDollars t
            from by simp [escapeDollars]] at hm
        simp only [List.mem_cons] at hm
        rcases hm with hm | hm | hm | hm | hm | hm | hm | hm | hm
        all_goals first | exact absurd hm (by decide) | exact ih hm
      · have hc' : ¬ ('$' = c) := fun hh => hc hh.symm
        simp [escapeDollars, hc, hc', ih]

theorem escapeDollars_eq_self (s : Str) (h : '$' ∉ s) : escapeDollars s = s := by
  induction s with
  | nil => rfl
  | cons c t ih =>
      have hc : c ≠ '$' := fun hh => h (hh ▸ List.mem_cons_self c t)
      have ht : '$' ∉ t := fun hm => h (List.mem_cons_of_mem _ hm)
      simp [escapeDollars, hc, ih ht]

theorem splitDollar_no_dollar (a : Str) (h : '$' ∉ a) : splitDollar a = a :: [] := by
  induction a with
  | nil => rfl
  | cons c t ih =>
      have hc : c ≠ '$' := fun hh => h (hh ▸ List.mem_cons_self c t)
      have ht : '$' ∉ t := fun hm => h (List.mem_cons_of_mem _ hm)
      simp [splitDollar, hc, ih ht]

theorem splitDollar_append (a t : Str) (h : '$' ∉ a) :
    splitDollar (a ++ '$' :: t) = a :: splitDollar t := by
  induction a with
  | nil => simp [splitDollar]
  | cons c r ih =>
      have hc : c ≠ '$' := fun hh => h (hh ▸ List.mem_cons_self c r)
      have hr : '$' ∉ r := fun hm => h (List.mem_cons_of_mem _ hm)
      simp [splitDollar, hc, ih hr]

theorem unesacapeDollars_placeholder (rest : Str) :
    unesacapeDollars ('_' :: 'D' :: 'O' :: 'L' :: 'L' :: 'A' :: 'R' :: '_' :: rest)
      = '$' :: unesacapeDollars rest := rfl

theorem unesacapeDollars_cons_ne (c : Char) (l : Str) (h : c ≠ '_') :
    unesacapeDollars (c :: l) = c :: unesacapeDollars l := by
  rw [unesacapeDollars.eq_def]
  split
  · rename_i heq; cases heq; exact absurd rfl h
  · rename_i heq; injection heq with h1 h2; subst h1; subst h2; rfl
  · rename_i heq; exact absurd heq (by simp)

theorem unesacapeDollars_cons_underscore (l : Str)
    (h : ¬ ('D' :: 'O' :: 'L' :: 'L' :: 'A' :: 'R' :: '_' :: []) <+: l) :
    unesacapeDollars ('_' :: l) = '_' :: unesacapeDollars l := by
  rw [unesacapeDollars.eq_def]
  split
  · rename_i heq
    injection heq with h1 h2
    subst h2
    exact absurd ⟨_, rfl⟩ h
  · rename_i heq; injection heq with h1 h2; subst h1; subst h2; rfl
  · rename_i heq; exact absurd heq (by simp)

theorem unesacapeDollars_eq_self (s : Str) (h : ∀ c ∈ s, c ≠ '_') :
    unesacapeDollars s = s := by
  induction s with
  | nil => rfl
  | cons c t ih =>
      rw [unesacapeDollars_cons_ne c t (h c (List.mem_cons_self c t))]
      rw [ih (fun d hd => h d (List.mem_cons_of_mem _ hd))]

theorem prefix_escapeDollars_aux (p : Str) :
    ∀ t : Str, (∀ c ∈ p, c ≠ '_' ∧ c ≠ '$') →
      (p ++ '_' :: []) <+: escapeDollars t → p <+: t := by
  induction p with
  | nil => intro t _ _; exact List.nil_prefix
  | cons a p' ih =>
      intro t hp hpre
      cases t with
      | nil => exact absurd hpre (by simp [escapeDollars])
      | cons b t' =>
          by_cases hb : b = '$'
          · subst hb
            rw [show escapeDollars ('$' :: t')
                  = '_' :: 'D' :: 'O' :: 'L' :: 'L' :: 'A' :: 'R' :: '_' :: escapeDollars t'
                from by simp [escapeDollars]] at hpre
            rw [List.cons_append, List.cons_prefix_cons] at hpre
            exact absurd hpre.1 (hp a (List.mem_cons_self a p')).1
          · rw [show escapeDollars (b :: t') = b :: escapeDollars t'
                from by simp [escapeDollars, hb]] at hpre
            rw [List.cons_append, List.cons_prefix_cons] at hpre
            obtain ⟨hab, hrest⟩ := hpre
            subst hab
            exact List.cons_prefix_cons.mpr
              ⟨rfl, ih t' (fun c hc => hp c (List.mem_cons_of_mem _ hc)) hrest⟩

theorem unesacapeDollars_escapeDollars (s : Str) (h : ¬ stemChars <:+: s) :
    unesacapeDollars (escapeDollars s) = s := by
  induction s with
  | nil => rfl
  | cons c t ih =>
      have ht : ¬ stemChars <:+: t := by
        rintro ⟨u, v, huv⟩
        exact h ⟨c :: u, v, by simp [← huv]⟩
      by_cases hc : c = '$'
      · subst hc
        rw [show escapeDollars ('$' :: t)
              = '_' :: 'D' :: 'O' :: 'L' :: 'L' :: 'A' :: 'R' :: '_' :: escapeDollars t
            from by simp [escapeDollars]]
        rw [unesacapeDollars_placeholder, ih ht]
      · rw [show escapeDollars (c :: t) = c :: escapeDollars t
            from by simp [escapeDollars, hc]]
        by_cases hu : c = '_'
        · subst hu
          have hnp : ¬ ('D' :: 'O' :: 'L' :: 'L' :: 'A' :: 'R' :: '_' :: []) <+: escapeDollars t := by
            intro hpre
            have hDt : ('D' :: 'O' :: 'L' :: 'L' :: 'A' :: 'R' :: []) <+: t :=
              prefix_escapeDollars_aux _ t (by decide) hpre
            exact h (List.IsPrefix.isInfix
              (show stemChars <+: '_' :: t from List.cons_prefix_cons.mpr ⟨rfl, hDt⟩))
          rw [unesacapeDollars_cons_underscore _ hnp, ih ht]
        · rw [unesacapeDollars_cons_ne c _ hu, ih ht]

/-! ### Helper lemmas: decimal printing and `Number(...)` parsing -/

theorem charDigitVal_digitChar (m : Nat) (h : m < 10) :
    charDigitVal (digitChar m) = m := by
  interval_cases m <;> rfl

theorem isDigitChar_digitChar (m : Nat) (h : m < 10) :
    isDigitChar (digitChar m) = true := by
  interval_cases m <;> rfl

theorem natToCharsGo_eq_append (fuel n : Nat) (acc : Str) :
    ∃ l, natToCharsGo fuel n acc = l ++ acc := by
  induction fuel generalizing n acc with
  | zero => exact ⟨[], rfl⟩
  | succ f ih =>
      by_cases h : n < 10
      · exact ⟨digitChar (n % 10) :: [], by simp [natToCharsGo, h]⟩
      · obtain ⟨l, hl⟩ := ih (n / 10) (digitChar (n % 10) :: acc)
        refine ⟨l ++ digitChar (n % 10) :: [], ?_⟩
        simp [natToCharsGo, h, hl]

theorem natToChars_ne_nil (n : Nat) : natToChars n ≠ [] := by
  unfold natToChars
  by_cases h : n < 10
  · simp [natToCharsGo, h]
  · obtain ⟨l, hl⟩ := natToCharsGo_eq_append n (n / 10) (digitChar (n % 10) :: [])
    simp [natToCharsGo, h, hl]

theorem natToCharsGo_digits (fuel : Nat) :
    ∀ (n : Nat) (acc : Str), (∀ c ∈ acc, isDigitChar c = true) →
      ∀ c ∈ natToCharsGo fuel n acc, isDigitChar c = true := by
  induction fuel with
  | zero => intro n acc hacc; exact hacc
  | succ f ih =>
      intro n acc hacc c hc
      by_cases h : n < 10
      · rw [show natToCharsGo (f + 1) n acc = digitChar (n % 10) :: acc
            from by simp [natToCharsGo, h]] at hc
        rcases List.mem_cons.mp hc with hc | hc
        · exact hc ▸ isDigitChar_digitChar (n % 10) ((by omega : n % 10 < 10))
        · exact hacc c hc
      · rw [show natToCharsGo (f + 1) n acc
              = natToCharsGo f (n / 10) (digitChar (n % 10) :: acc)
            from by simp [natToCharsGo, h]] at hc
        refine ih (n / 10) _ ?_ c hc
        intro d hd
        rcases List.mem_cons.mp hd with hd | hd
        · exact hd ▸ isDigitChar_digitChar (n % 10) ((by omega : n % 10 < 10))
        · exact hacc d hd

theorem natToChars_digits (n : Nat) : ∀ c ∈ natToChars n, isDigitChar c = true :=
  natToCharsGo_digits (n + 1) n [] (by simp)

theorem isDigitChar_ne (c : Char) (h : isDigitChar c = true) :
    c ≠ '-' ∧ c ≠ '_' ∧ c ≠ '$' := by
  refine ⟨?_, ?_, ?_⟩ <;> intro hh <;> subst hh <;> exact absurd h (by decide)

theorem valFrom_nil (a : Nat) : valFrom a [] = a := rfl

theorem valFrom_cons (a : Nat) (c : Char) (l : Str) :
    valFrom a (c :: l) = valFrom (10 * a + charDigitVal c) l := rfl

theorem valFrom_natToCharsGo (fuel : Nat) :
    ∀ (n a : Nat) (acc : Str), 1 ≤ fuel → n < 10 ^ fuel →
      valFrom a (natToCharsGo fuel n acc)
        = valFrom (a * 10 ^ (Nat.log 10 n + 1) + n) acc := by
  induction fuel with
  | zero => intro n a acc hf; exact absurd hf (by omega)
  | succ f ih =>
      intro n a acc _ hn
      by_cases h : n < 10
      · rw [show natToCharsGo (f + 1) n acc = digitChar (n % 10) :: acc
            from by simp [natToCharsGo, h]]
        have hlog : Nat.log 10 n = 0 :=
          Nat.log_eq_zero_iff.mpr (Or.inl h)
        rw [valFrom_cons]
        rw [charDigitVal_digitChar (n % 10) (by omega : n % 10 < 10)]
        rw [hlog]
        have harith : 10 * a + n % 10 = a * 10 ^ (0 + 1) + n := by
          have : n % 10 = n := Nat.mod_eq_of_lt h
          simp [this]
          omega
        rw [harith]
      · rw [show natToCharsGo (f + 1) n acc
              = natToCharsGo f (n / 10) (digitChar (n % 10) :: acc)
            from by simp [natToCharsGo, h]]
        have hf1 : 1 ≤ f := by
          rcases Nat.eq_zero_or_pos f with rfl | hf
          · exact absurd hn (by simpa using h)
          · exact hf
        have hdiv : n / 10 < 10 ^ f := by
          rw [Nat.div_lt_iff_lt_mul (by norm_num)]
          calc n < 10 ^ (f + 1) := hn
          _ = 10 ^ f * 10 := by rw [pow_succ]
        rw [ih (n / 10) a (digitChar (n % 10) :: acc) hf1 hdiv]
        rw [valFrom_cons]
        rw [charDigitVal_digitChar (n % 10) (by omega : n % 10 < 10)]
        have hL : 1 ≤ Nat.log 10 n := Nat.log_pos (by norm_num) (by omega)
        rw [Nat.log_div_base 10 n]
        have hLL : Nat.log 10 n - 1 + 1 = Nat.log 10 n := by omega
        rw [hLL]
        have harith : 10 * (a * 10 ^ Nat.log 10 n + n / 10) + n % 10
            = a * 10 ^ (Nat.log 10 n + 1) + n := by
          rw [pow_succ, ← mul_assoc]
          generalize a * 10 ^ Nat.log 10 n = m
          omega
        rw [harith]

theorem valFrom_natToChars (n : Nat) : valFrom 0 (natToChars n) = n := by
  have h2 : n < 10 ^ (n + 1) := by
    calc n < 2 ^ n := Nat.lt_two_pow n
    _ ≤ 10 ^ n := Nat.pow_le_pow_left (by norm_num) n
    _ ≤ 10 ^ (n + 1) := Nat.pow_le_pow_right (by norm_num) (by omega)
  have hgo := valFrom_natToCharsGo (n + 1) n 0 [] (by omega) h2
  rw [valFrom_nil] at hgo
  show valFrom 0 (natToCharsGo (n + 1) n []) = n
  rw [hgo]
  omega

theorem jsNum_roundtrip (h : JSNum) (hn : h ≠ JSNum.nan) :
    jsNumberOfChars (jsNumToChars h) = h := by
  cases h with
  | nan => exact absurd rfl hn
  | num z =>
      by_cases hz : z < 0
      · rw [show jsNumToChars (JSNum.num z) = '-' :: natToChars z.natAbs
            from by simp [jsNumToChars, hz]]
        have hne : natToChars z.natAbs ≠ [] := natToChars_ne_nil _
        have hall : (natToChars z.natAbs).all isDigitChar = true := by
          rw [List.all_eq_true]; intro c hc; exact natToChars_digits _ c hc
        rw [show jsNumberOfChars ('-' :: natToChars z.natAbs)
              = JSNum.num (-(valFrom 0 (natToChars z.natAbs) : Int))
            from by simp [jsNumberOfChars, hne, hall]]
        rw [valFrom_natToChars]
        have : -(z.natAbs : Int) = z := by omega
        rw [this]
      · rw [show jsNumToChars (JSNum.num z) = natToChars z.toNat
            from by simp [jsNumToChars, hz]]
        obtain ⟨c, t, hct⟩ : ∃ c t, natToChars z.toNat = c :: t := by
          cases hh : natToChars z.toNat with
          | nil => exact absurd hh (natToChars_ne_nil _)
          | cons c t => exact ⟨c, t, rfl⟩
        have hcd : isDigitChar c = true :=
          natToChars_digits _ c (hct ▸ List.mem_cons_self c t)
        have hcne : c ≠ '-' := (isDigitChar_ne c hcd).1
        have hall : (c :: t).all isDigitChar = true := by
          rw [← hct, List.all_eq_true]; intro d hd; exact natToChars_digits _ d hd
        rw [hct]
        rw [show jsNumberOfChars (c :: t) = JSNum.num ((valFrom 0 (c :: t) : Int))
            from by simp [jsNumberOfChars, hcne, hall]]
        rw [← hct, valFrom_natToChars]
        have : (z.toNat : Int) = z := by omega
        rw [this]

theorem jsNumToChars_num_chars (z : Int) :
    ∀ c ∈ jsNumToChars (JSNum.num z), c ≠ '$' ∧ c ≠ '_' := by
  intro c hc
  by_cases hz : z < 0
  · rw [show jsNumToChars (JSNum.num z) = '-' :: natToChars z.natAbs
        from by simp [jsNumToChars, hz]] at hc
    rcases List.mem_cons.mp hc with hc | hc
    · subst hc; exact ⟨by decide, by decide⟩
    · have := isDigitChar_ne c (natToChars_digits _ c hc)
      exact ⟨this.2.2, this.2.1⟩
  · rw [show jsNumToChars (JSNum.num z) = natToChars z.toNat
        from by simp [jsNumToChars, hz]] at hc
    have := isDigitChar_ne c (natToChars_digits _ c hc)
    exact ⟨this.2.2, this.2.1⟩

theorem intercalate_four (a b c d : Str) :
    List.intercalate ('$' :: []) (a :: b :: c :: d :: [])
      = a ++ '$' :: (b ++ '$' :: (c ++ '$' :: d)) := by
  simp [List.intercalate, List.intersperse]

/-- The codec round-trip on its safe domain: identifiers whose uid is free
of the delimiter, or whose cloud fields are free of the placeholder stem
and whose hash is a number. -/
theorem roundTrip_core (id : RuleIdentifier) (h : RoundTripSafe id) :
    parseRuleIdentifier (stringifyRuleIdentifier id) = Except.ok id := by
  cases id with
  | grafana uid =>
      have hu : '$' ∉ uid := h
      show parseRuleIdentifier uid = Except.ok (RuleIdentifier.grafana uid)
      unfold parseRuleIdentifier
      rw [splitDollar_no_dollar uid hu]
  | cloud s n g hsh =>
      obtain ⟨hs, hn, hg, hnum⟩ := h
      obtain ⟨z, rfl⟩ : ∃ z, hsh = JSNum.num z := by
        cases hsh with
        | num z => exact ⟨z, rfl⟩
        | nan => exact absurd rfl hnum
      have hdns : escapeDollars (jsNumToChars (JSNum.num z)) = jsNumToChars (JSNum.num z) :=
        escapeDollars_eq_self _ (fun hm => (jsNumToChars_num_chars z '$' hm).1 rfl)
      have hstr : stringifyRuleIdentifier (RuleIdentifier.cloud s n g (JSNum.num z))
          = escapeDollars s ++ '$' :: (escapeDollars n ++ '$' ::
              (escapeDollars g ++ '$' :: jsNumToChars (JSNum.num z))) := by
        show List.intercalate ('$' :: []) (escapeDollars s :: escapeDollars n ::
          escapeDollars g :: escapeDollars (jsNumToChars (JSNum.num z)) :: []) = _
        rw [hdns, intercalate_four]
      have hsplit : splitDollar (escapeDollars s ++ '$' :: (escapeDollars n ++ '$' ::
          (escapeDollars g ++ '$' :: jsNumToChars (JSNum.num z))))
          = escapeDollars s :: escapeDollars n :: escapeDollars g ::
              jsNumToChars (JSNum.num z) :: [] := by
        rw [splitDollar_append _ _ (dollar_not_mem_escapeDollars s),
            splitDollar_append _ _ (dollar_not_mem_escapeDollars n),
            splitDollar_append _ _ (dollar_not_mem_escapeDollars g),
            splitDollar_no_dollar _ (fun hm => (jsNumToChars_num_chars z '$' hm).1 rfl)]
      rw [hstr]
      unfold parseRuleIdentifier
      rw [hsplit]
      show Except.ok (RuleIdentifier.cloud (unesacapeDollars (escapeDollars s))
        (unesacapeDollars (escapeDollars n)) (unesacapeDollars (escapeDollars g))
        (jsNumberOfChars (unesacapeDollars (jsNumToChars (JSNum.num z))))) = _
      rw [unesacapeDollars_escapeDollars s hs, unesacapeDollars_escapeDollars n hn,
          unesacapeDollars_escapeDollars g hg,
          unesacapeDollars_eq_self _ (fun c hc => (jsNumToChars_num_chars z c hc).2),
          jsNum_roundtrip (JSNum.num z) (fun hh => JSNum.noConfusion hh)]

theorem insertionSort_sorted_strict (m : LabelMap) (h : (m.map Prod.fst).Nodup) :
    List.Sorted entryLt (List.insertionSort entryLe m) := by
  have hs : List.Sorted entryLe (List.insertionSort entryLe m) :=
    List.sorted_insertionSort entryLe m
  have hperm : (List.insertionSort entryLe m).Perm m := List.perm_insertionSort entryLe m
  have hnd : ((List.insertionSort entryLe m).map Prod.fst).Nodup :=
    ((hperm.map Prod.fst).nodup_iff).mpr h
  have hpw : (List.insertionSort entryLe m).Pairwise (fun a b => a.1 ≠ b.1) :=
    List.pairwise_map.mp hnd
  exact (hs.and hpw).imp (fun hab => lt_of_le_of_ne hab.1 hab.2)

/-! ### Claim theorems -/

/-- Claim C1, counterexample: the round-trip claim fails as stated. The Native
identifier with uid `a$b` stringifies to its uid unescaped, so parsing
splits it into two parts and fails instead of returning the identifier. -/
theorem c1_roundTrip_counterexample :
    parseRuleIdentifier (stringifyRuleIdentifier
        (RuleIdentifier.grafana ('a' :: '$' :: 'b' :: [])))
      ≠ Except.ok (RuleIdentifier.grafana ('a' :: '$' :: 'b' :: [])) := by
  intro h
  rw [show parseRuleIdentifier (stringifyRuleIdentifier
        (RuleIdentifier.grafana ('a' :: '$' :: 'b' :: [])))
        = Except.error ("Failed to parse rule location: "
            ++ String.mk ('a' :: '$' :: 'b' :: []))
      from rfl] at h
  exact Except.noConfusion h

/-- Claim C1 (amended): `parseRuleIdentifier (stringifyRuleIdentifier id) = ok id`
for every identifier whose Native uid contains no `$`, and whose Composite
location fields do not contain the placeholder stem `_DOLLAR` and whose
fingerprint is a number. -/
theorem c1_roundTrip_amended (id : RuleIdentifier) (h : RoundTripSafe id) :
    parseRuleIdentifier (stringifyRuleIdentifier id) = Except.ok id :=
  roundTrip_core id h

/-- Witness for C1 (amended): a concrete cloud identifier with a `$` in its
source name round-trips. -/
theorem c1_roundTrip_amended_witness :
    RoundTripSafe (RuleIdentifier.cloud ("cortex$prod".toList) ("ns-a".toList)
        ("grp-1".toList) (JSNum.num 42)) ∧
    parseRuleIdentifier (stringifyRuleIdentifier (RuleIdentifier.cloud
        ("cortex$prod".toList) ("ns-a".toList) ("grp-1".toList) (JSNum.num 42)))
      = Except.ok (RuleIdentifier.cloud ("cortex$prod".toList) ("ns-a".toList)
          ("grp-1".toList) (JSNum.num 42)) :=
  ⟨by decide, c1_roundTrip_amended _ (by decide)⟩

/-- Claim C2: the fingerprint of a Recording-shaped record is the external hash of
the serialized ordered tuple (record name, expr, canonicalized labels); of
an Alerting-shaped record the hash of (alert name, expr, canonicalized
annotations, canonicalized labels), in exactly those field orders. -/
theorem c2_hashRulerRule_tuple (hash : Str → Int) (name expr : Str)
    (labels annotations : Option LabelMap) :
    hashRulerRule hash (RuleRecord.recording name expr labels)
      = Except.ok (hash (jsonStringifyStrings
          (name :: expr :: hashLabelsOrAnnotations labels :: []))) ∧
    hashRulerRule hash (RuleRecord.alerting name expr labels annotations)
      = Except.ok (hash (jsonStringifyStrings
          (name :: expr :: hashLabelsOrAnnotations annotations ::
            hashLabelsOrAnnotations labels :: []))) :=
  ⟨rfl, rfl⟩

/-- Claim C3: canonicalization is order-independent — two mappings holding the
same key-value pairs in different insertion orders canonicalize to the
same string — and an absent mapping canonicalizes like an empty one. -/
theorem c3_canonicalize_order_independent :
    (∀ m1 m2 : LabelMap, m1.Perm m2 → (m1.map Prod.fst).Nodup →
        hashLabelsOrAnnotations (some m1) = hashLabelsOrAnnotations (some m2)) ∧
    hashLabelsOrAnnotations none = hashLabelsOrAnnotations (some []) := by
  constructor
  · intro m1 m2 hperm hnd
    show jsonStringifyPairs (List.insertionSort entryLe m1)
      = jsonStringifyPairs (List.insertionSort entryLe m2)
    congr 1
    exact List.eq_of_perm_of_sorted
      ((List.perm_insertionSort entryLe m1).trans
        (hperm.trans (List.perm_insertionSort entryLe m2).symm))
      (insertionSort_sorted_strict m1 hnd)
      (insertionSort_sorted_strict m2 (((hperm.map Prod.fst).nodup_iff).mp hnd))
  · rfl

/-- Witness for C3: two two-entry mappings in opposite orders canonicalize
identically. -/
theorem c3_canonicalize_order_independent_witness :
    ((("b".toList, "2".toList) :: ("a".toList, "1".toList) :: []) : LabelMap).Perm
        (("a".toList, "1".toList) :: ("b".toList, "2".toList) :: []) ∧
    (((("b".toList, "2".toList) :: ("a".toList, "1".toList) :: []) : LabelMap).map
        Prod.fst).Nodup ∧
    hashLabelsOrAnnotations (some (("b".toList, "2".toList) :: ("a".toList, "1".toList) :: []))
      = hashLabelsOrAnnotations (some (("a".toList, "1".toList) :: ("b".toList, "2".toList) :: [])) :=
  ⟨by decide, by decide,
   c3_canonicalize_order_independent.1 _ _ (by decide) (by decide)⟩

/-- Claim C4: `parseRuleIdentifier` splits its input on the dollar delimiter: one
part yields the Native variant on the whole input, four parts yield the
Composite variant with every part unescaped and the fourth coerced to a
number, and any other part count yields the parse error that names the
offending input. -/
theorem c4_parseRuleIdentifier_by_parts (s : Str) :
    (∀ p, splitDollar s = p :: [] →
        parseRuleIdentifier s = Except.ok (RuleIdentifier.grafana s)) ∧
    (∀ a b c d, splitDollar s = a :: b :: c :: d :: [] →
        parseRuleIdentifier s = Except.ok (RuleIdentifier.cloud (unesacapeDollars a)
          (unesacapeDollars b) (unesacapeDollars c)
          (jsNumberOfChars (unesacapeDollars d)))) ∧
    ((splitDollar s).length ≠ 1 → (splitDollar s).length ≠ 4 →
        parseRuleIdentifier s
          = Except.error ("Failed to parse rule location: " ++ String.mk s)) := by
  refine ⟨?_, ?_, ?_⟩
  · intro p hp; unfold parseRuleIdentifier; rw [hp]
  · intro a b c d hp; unfold parseRuleIdentifier; rw [hp]
  · intro h1 h4
    unfold parseRuleIdentifier
    rcases hs : splitDollar s with _ | ⟨a, _ | ⟨b, _ | ⟨c, _ | ⟨d, _ | ⟨e, rest⟩⟩⟩⟩⟩
    · rfl
    · rw [hs] at h1; exact absurd rfl h1
    · rfl
    · rfl
    · rw [hs] at h4; exact absurd rfl h4
    · rfl

/-- Witness for C4: a one-part, a four-part and a three-part input. -/
theorem c4_parseRuleIdentifier_by_parts_witness :
    parseRuleIdentifier ("abc".toList) = Except.ok (RuleIdentifier.grafana ("abc".toList)) ∧
    parseRuleIdentifier ("a$b$c$5".toList)
      = Except.ok (RuleIdentifier.cloud ("a".toList) ("b".toList) ("c".toList) (JSNum.num 5)) ∧
    parseRuleIdentifier ("a$b$c".toList)
      = Except.error ("Failed to parse rule location: " ++ String.mk ("a$b$c".toList)) :=
  ⟨(c4_parseRuleIdentifier_by_parts _).1 ("abc".toList) rfl,
   (c4_parseRuleIdentifier_by_parts _).2.1 ("a".toList) ("b".toList) ("c".toList) ("5".toList) rfl,
   (c4_parseRuleIdentifier_by_parts _).2.2 (by decide) (by decide)⟩

/-- Claim C5: invoking the fingerprint on a record that is neither Recording nor
Alerting shape (in particular any Native-shaped record) yields the
unsupported-variant error. -/
theorem c5_hashRulerRule_unsupported (hash : Str → Int) (rule : RuleRecord)
    (h1 : isRecordingRulerRule rule = false) (h2 : isAlertingRulerRule rule = false) :
    hashRulerRule hash rule
      = Except.error ("only recording and alerting ruler rules can be hashed") := by
  cases rule with
  | recording a b c => exact absurd h1 (by simp [isRecordingRulerRule])
  | alerting a b c d => exact absurd h2 (by simp [isAlertingRulerRule])
  | grafana ga => rfl
  | invalid => rfl

/-- Witness for C5 at a Native-shaped record. -/
theorem c5_hashRulerRule_unsupported_witness :
    isRecordingRulerRule (RuleRecord.grafana ⟨'u' :: []⟩) = false ∧
    isAlertingRulerRule (RuleRecord.grafana ⟨'u' :: []⟩) = false ∧
    hashRulerRule (fun _ => 0) (RuleRecord.grafana ⟨'u' :: []⟩)
      = Except.error ("only recording and alerting ruler rules can be hashed") :=
  ⟨rfl, rfl, c5_hashRulerRule_unsupported _ _ rfl rfl⟩

/-- Claim C6: classifier exclusivity — for every record exactly one of the three
shape predicates holds, or none does (an invalid record); never two at
once. -/
theorem c6_classifier_exclusive (rule : RuleRecord) :
    (isGrafanaRulerRule (some rule) = true ∧ isRecordingRulerRule rule = false
        ∧ isAlertingRulerRule rule = false) ∨
    (isGrafanaRulerRule (some rule) = false ∧ isRecordingRulerRule rule = true
        ∧ isAlertingRulerRule rule = false) ∨
    (isGrafanaRulerRule (some rule) = false ∧ isRecordingRulerRule rule = false
        ∧ isAlertingRulerRule rule = true) ∨
    (isGrafanaRulerRule (some rule) = false ∧ isRecordingRulerRule rule = false
        ∧ isAlertingRulerRule rule = false) := by
  cases rule with
  | recording a b c => exact Or.inr (Or.inl ⟨rfl, rfl, rfl⟩)
  | alerting a b c d => exact Or.inr (Or.inr (Or.inl ⟨rfl, rfl, rfl⟩))
  | grafana ga => exact Or.inl ⟨rfl, rfl, rfl⟩
  | invalid => exact Or.inr (Or.inr (Or.inr ⟨rfl, rfl, rfl⟩))

/-- Claim C7: `getRuleIdentifier` returns the Native variant wrapping the
record's embedded uid when the record has Native shape, and otherwise the
Composite variant built from the three caller-supplied location fields and
the record's fingerprint. -/
theorem c7_getRuleIdentifier_spec (hash : Str → Int) (src nsp grp : Str)
    (rule : RuleRecord) :
    (∀ ga, rule = RuleRecord.grafana ga →
        getRuleIdentifier hash src nsp grp rule
          = Except.ok (RuleIdentifier.grafana ga.uid)) ∧
    (isGrafanaRulerRule (some rule) = false →
      ∀ fp, hashRulerRule hash rule = Except.ok fp →
        getRuleIdentifier hash src nsp grp rule
          = Except.ok (RuleIdentifier.cloud src nsp grp (JSNum.num fp))) := by
  constructor
  · intro ga heq
    subst heq
    rfl
  · intro hng fp hfp
    cases rule with
    | recording a b c =>
        show (hashRulerRule hash (RuleRecord.recording a b c)).map
          (fun h => RuleIdentifier.cloud src nsp grp (JSNum.num h)) = _
        rw [hfp]
        rfl
    | alerting a b c d =>
        show (hashRulerRule hash (RuleRecord.alerting a b c d)).map
          (fun h => RuleIdentifier.cloud src nsp grp (JSNum.num h)) = _
        rw [hfp]
        rfl
    | grafana ga => exact absurd hng (by simp [isGrafanaRulerRule])
    | invalid => simp [hashRulerRule] at hfp

/-- Witness for C7 at a Native record and at a Recording record. -/
theorem c7_getRuleIdentifier_spec_witness :
    getRuleIdentifier (fun _ => 7) ('s' :: []) ('n' :: []) ('g' :: [])
        (RuleRecord.grafana ⟨'u' :: []⟩)
      = Except.ok (RuleIdentifier.grafana ('u' :: [])) ∧
    isGrafanaRulerRule (some (RuleRecord.recording ('r' :: []) ('e' :: []) none)) = false ∧
    hashRulerRule (fun _ => 7) (RuleRecord.recording ('r' :: []) ('e' :: []) none)
      = Except.ok 7 ∧
    getRuleIdentifier (fun _ => 7) ('s' :: []) ('n' :: []) ('g' :: [])
        (RuleRecord.recording ('r' :: []) ('e' :: []) none)
      = Except.ok (RuleIdentifier.cloud ('s' :: []) ('n' :: []) ('g' :: []) (JSNum.num 7)) :=
  ⟨(c7_getRuleIdentifier_spec (fun _ => 7) ('s' :: []) ('n' :: []) ('g' :: [])
      (RuleRecord.grafana ⟨'u' :: []⟩)).1 _ rfl, rfl, rfl,
   (c7_getRuleIdentifier_spec (fun _ => 7) ('s' :: []) ('n' :: []) ('g' :: [])
      (RuleRecord.recording ('r' :: []) ('e' :: []) none)).2 rfl 7 rfl⟩

/-- Claim C8: the escaping scheme does not escape its own placeholder — a cloud
identifier whose source-name field literally contains the placeholder text
`_DOLLAR_` does not round-trip through the codec. -/
theorem c8_placeholder_not_escaped :
    (stemChars ++ '_' :: []) <:+:
      ('x' :: '_' :: 'D' :: 'O' :: 'L' :: 'L' :: 'A' :: 'R' :: '_' :: 'y' :: []) ∧
    parseRuleIdentifier (stringifyRuleIdentifier (RuleIdentifier.cloud
        ('x' :: '_' :: 'D' :: 'O' :: 'L' :: 'L' :: 'A' :: 'R' :: '_' :: 'y' :: [])
        ('b' :: []) ('c' :: []) (JSNum.num 5)))
      ≠ Except.ok (RuleIdentifier.cloud
        ('x' :: '_' :: 'D' :: 'O' :: 'L' :: 'L' :: 'A' :: 'R' :: '_' :: 'y' :: [])
        ('b' :: []) ('c' :: []) (JSNum.num 5)) := by
  constructor
  · decide
  · intro h
    rw [show parseRuleIdentifier (stringifyRuleIdentifier (RuleIdentifier.cloud
          ('x' :: '_' :: 'D' :: 'O' :: 'L' :: 'L' :: 'A' :: 'R' :: '_' :: 'y' :: [])
          ('b' :: []) ('c' :: []) (JSNum.num 5)))
          = Except.ok (RuleIdentifier.cloud ('x' :: '$' :: 'y' :: [])
              ('b' :: []) ('c' :: []) (JSNum.num 5)) from rfl] at h
    injection h with h2
    exact absurd h2 (by decide)

/-- Claim C9: the native-shape classifier tolerates missing input — it returns
false on an absent record rather than failing — and on a present record it
holds exactly when the record carries the nested `grafana_alert` identity
block. -/
theorem c9_isGrafanaRulerRule_spec :
    isGrafanaRulerRule none = false ∧
    ∀ rule : RuleRecord, isGrafanaRulerRule (some rule) = true
      ↔ ∃ ga, rule = RuleRecord.grafana ga := by
  refine ⟨rfl, ?_⟩
  intro rule
  cases rule with
  | recording a b c => simp [isGrafanaRulerRule]
  | alerting a b c d => simp [isGrafanaRulerRule]
  | grafana ga => simp [isGrafanaRulerRule]
  | invalid => simp [isGrafanaRulerRule]

/-- Claim C10: a four-part input never yields a parse error, whatever its fourth
part: the result is the Composite variant whose fingerprint is the numeric
coercion of the unescaped fourth part — `NaN` when that part is
non-numeric, silently accepted. -/
theorem c10_fourParts_no_error (s : Str) (a b c d : Str)
    (h : splitDollar s = a :: b :: c :: d :: []) :
    parseRuleIdentifier s = Except.ok (RuleIdentifier.cloud (unesacapeDollars a)
      (unesacapeDollars b) (unesacapeDollars c)
      (jsNumberOfChars (unesacapeDollars d))) ∧
    ∀ msg, parseRuleIdentifier s ≠ Except.error msg := by
  have he : parseRuleIdentifier s = Except.ok (RuleIdentifier.cloud (unesacapeDollars a)
      (unesacapeDollars b) (unesacapeDollars c)
      (jsNumberOfChars (unesacapeDollars d))) := by
    unfold parseRuleIdentifier; rw [h]
  refine ⟨he, fun msg hm => ?_⟩
  rw [he] at hm
  exact Except.noConfusion hm

/-- Witness for C10: the four-part input `a$b$c$xyz`, whose non-numeric
fourth part is accepted with a `NaN` fingerprint. -/
theorem c10_fourParts_no_error_witness :
    splitDollar ("a$b$c$xyz".toList)
      = ("a".toList) :: ("b".toList) :: ("c".toList) :: ("xyz".toList) :: [] ∧
    parseRuleIdentifier ("a$b$c$xyz".toList)
      = Except.ok (RuleIdentifier.cloud ("a".toList) ("b".toList) ("c".toList) JSNum.nan) :=
  ⟨rfl, (c10_fourParts_no_error ("a$b$c$xyz".toList) ("a".toList) ("b".toList)
      ("c".toList) ("xyz".toList) rfl).1⟩
